import Mathlib

/-!
# Verification of the llm_proxy translating backend adapter

A shallow embedding, in Lean 4, of the core translation logic of the
`llm_proxy` reverse proxy (Go), together with theorems settling the
specification claims about it.

Embedded code (from the repository sources):

* `backend/openai.go` — the translating adapter (latest revision, with
  raw-transcript draining and tool-call accumulation):
  `handleStreamingChat`, `handleStreamingCompletion`,
  `handleNonStreamingChat`, `handleNonStreamingCompletion`,
  `buildToolCallsArray`, `ListModels`.
* `handlers/chat.go` — the orchestrator's pre-backend transforms
  (`applyTextInjection`, `filterTools`) and its client relay loop.

Modelling conventions:

* Go `interface{}` values decoded from JSON are modelled by the inductive
  `JSON`.  JSON numbers are modelled as integers: the adapter only reads the
  numeric tool-call `index` field, which Go immediately truncates to `int`.
* `json.Unmarshal` of a free-form string (tool-call argument payloads) is
  abstracted as a parameter `parse : String → Option JSON` (`none` models a
  decode error).
* The backend byte stream, which Go reads line by line through
  `bufio.Scanner`, is modelled as a `List (ScanLine α)`: each line is
  classified the way the handler's own tests classify it (has the
  `"data: "` marker or not, is the `"[DONE]"` sentinel, unmarshals or not).
* Wall-clock reads are abstracted: `time.Now` timestamps (`CreatedAt`,
  `ModifiedAt`) are omitted from the records, and the single
  `time.Since(startTime)` read that feeds a final increment's duration
  counters is the parameter `elapsed` (nanoseconds).
* Go channel sends are modelled by accumulating the sent values in a list,
  in send order; context cancellation (a concurrency concern) is not
  modelled, so every run drains the whole stream.
-/

namespace LLMProxy

/-- A JSON-like value, the shallow embedding of a decoded Go `interface{}`.
Objects are association lists (Go maps; key order is irrelevant to the
embedded code). Numbers are modelled as integers (see module header). -/
inductive JSON where
  | null
  | bool (b : Bool)
  | num (n : Int)
  | str (s : String)
  | arr (xs : List JSON)
  | obj (fields : List (String × JSON))

/-- Lookup of a key in a JSON object's field list (Go map indexing). -/
def jsonLookup (fields : List (String × JSON)) (key : String) : Option JSON :=
  match fields with
  | [] => none
  | (k, v) :: rest => if k = key then some v else jsonLookup rest key

/-- The top-level keys of a JSON object (`[]` for non-objects). -/
def objKeys : JSON → List String
  | .obj fs => fs.map (·.1)
  | _ => []

/-! ## Substring search (Go `strings.Contains`) -/

/-- Whether `sub` occurs at the head of `l` (Go `strings.HasPre`-style test,
on the character list). -/
def isLeadingPart (sub l : List Char) : Bool :=
  match sub, l with
  | [], _ => true
  | _ :: _, [] => false
  | a :: as, b :: bs => a = b && isLeadingPart as bs

/-- Whether `sub` occurs anywhere inside `l`. -/
def occursIn (sub : List Char) : List Char → Bool
  | [] => decide (sub = [])
  | a :: rest => isLeadingPart sub (a :: rest) || occursIn sub rest

/-- Go `strings.Contains s sub`. -/
def goContains (s sub : String) : Bool :=
  occursIn sub.data s.data

/-! ## Data model (models/types.go) -/

/-- `models.Message`: one chat message.  `tool_calls` entries are opaque
JSON values in the Go source (`[]interface{}`; `nil` is the empty list).
The Go timestamp-free fields are carried verbatim. -/
structure Message where
  role : String
  content : String
  toolCalls : List JSON := []

/-- `models.ChatResponse`: one Ollama-dialect chat increment.  `CreatedAt`
(a `time.Now` wall-clock stamp) is abstracted away; Go zero values are the
field defaults. -/
structure ChatResponse where
  model : String
  message : Message
  done : Bool
  doneReason : String := ""
  totalDuration : Int := 0
  loadDuration : Int := 0
  promptEvalCount : Int := 0
  promptEvalDuration : Int := 0
  evalCount : Int := 0
  evalDuration : Int := 0

/-- `models.GenerateResponse`: one Ollama-dialect generation increment.
`CreatedAt` and the unused `Context` field are abstracted away. -/
structure GenerateResponse where
  model : String
  response : String
  done : Bool
  doneReason : String := ""
  totalDuration : Int := 0
  loadDuration : Int := 0
  promptEvalCount : Int := 0
  promptEvalDuration : Int := 0
  evalCount : Int := 0
  evalDuration : Int := 0
deriving DecidableEq

/-- `models.OpenAIUsage`. -/
structure OpenAIUsage where
  promptTokens : Int := 0
  completionTokens : Int := 0
  totalTokens : Int := 0
deriving DecidableEq

/-- `models.OpenAICompletionChoice`. -/
structure OpenAICompletionChoice where
  text : String := ""
  index : Int := 0
  finishReason : String := ""
deriving DecidableEq

/-- `models.OpenAICompletionResponse`. -/
structure OpenAICompletionResponse where
  id : String := ""
  object : String := ""
  created : Int := 0
  model : String := ""
  choices : List OpenAICompletionChoice := []
  usage : OpenAIUsage := {}
deriving DecidableEq

/-- `models.OpenAIChatChoice`.  `delta` and `message` are `*Message`
pointers in Go (`none` models `nil`). -/
structure OpenAIChatChoice where
  delta : Option Message := none
  message : Option Message := none
  index : Int := 0
  finishReason : String := ""

/-- `models.OpenAIChatResponse`. -/
structure OpenAIChatResponse where
  id : String := ""
  object : String := ""
  created : Int := 0
  model : String := ""
  choices : List OpenAIChatChoice := []
  usage : OpenAIUsage := {}

/-- `models.ModelInfo` (wall-clock `ModifiedAt` abstracted away). -/
structure ModelInfo where
  name : String
  model : String
  size : Int
  digest : String
deriving DecidableEq

/-- `models.ModelsResponse`. -/
structure ModelsResponse where
  models : List ModelInfo
deriving DecidableEq

/-! ## The scanned backend stream -/

/-- One line of the backend's streamed body, as classified by the handler's
own tests in `handleStreamingChat` / `handleStreamingCompletion`:
`other` lines lack the `"data: "` marker, `sentinel` is `"data: [DONE]"`,
`malformedData` carries a payload `json.Unmarshal` rejects, and `chunk`
carries a payload that unmarshals to `resp`. -/
inductive ScanLine (α : Type) where
  | other (raw : String)
  | sentinel
  | malformedData (payload : String)
  | chunk (payload : String) (resp : α)

/-- The raw text of a scanned line, as appended to the transcript capture. -/
def ScanLine.rawText : ScanLine α → String
  | .other raw => raw
  | .sentinel => "data: [DONE]"
  | .malformedData p => "data: " ++ p
  | .chunk p _ => "data: " ++ p

/-! ## Tool-call accumulation (handleStreamingChat, backend/openai.go) -/

/-- The per-index accumulator value of `toolCallsState` in
`handleStreamingChat` (`struct { ID, Name, Arguments string }`); Go zero
values are the defaults. -/
structure ToolState where
  id : String := ""
  name : String := ""
  arguments : String := ""
deriving DecidableEq

/-- `toolCallsState`: the Go `map[int]struct{...}` keyed by the backend's
per-chunk tool-call index, as an association list with unique keys.  The
key is `Int` because Go truncates the decoded `float64` index to `int`. -/
abbrev ToolCallsState := List (Int × ToolState)

/-- Go map read `toolCallsState[index]`. -/
def lookupTS (st : ToolCallsState) (i : Int) : Option ToolState :=
  match st with
  | [] => none
  | (k, v) :: rest => if k = i then some v else lookupTS rest i

/-- Go map write `toolCallsState[index] = v` (update or append). -/
def insertTS (st : ToolCallsState) (i : Int) (v : ToolState) : ToolCallsState :=
  match st with
  | [] => [(i, v)]
  | (k, w) :: rest => if k = i then (i, v) :: rest else (k, w) :: insertTS rest i v

/-- The `maxIndex` scan in `buildToolCallsArray`: the largest accumulated
index, starting from `-1`. -/
def maxIndexTS (st : ToolCallsState) : Int :=
  st.foldl (fun acc kv => if kv.1 > acc then kv.1 else acc) (-1)

/-- The body of the `for _, tc := range choice.Delta.ToolCalls` loop in
`handleStreamingChat`: fold one streamed tool-call fragment into the
accumulator.  Non-map fragments are skipped; a missing or non-numeric
`index` defaults to `0`; any non-empty `id` / `function.name` overwrites
the recorded one; `function.arguments` strings are concatenated. -/
def accumToolCallDelta (st : ToolCallsState) (tc : JSON) : ToolCallsState :=
  match tc with
  | .obj tcMap =>
    let index : Int :=
      match jsonLookup tcMap "index" with
      | some (.num n) => n
      | _ => 0
    let s0 : ToolState := (lookupTS st index).getD {}
    let s1 : ToolState :=
      match jsonLookup tcMap "id" with
      | some (.str id) => if id ≠ "" then { s0 with id := id } else s0
      | _ => s0
    let s2 : ToolState :=
      match jsonLookup tcMap "function" with
      | some (.obj fn) =>
        let sa : ToolState :=
          match jsonLookup fn "name" with
          | some (.str n) => if n ≠ "" then { s1 with name := n } else s1
          | _ => s1
        match jsonLookup fn "arguments" with
        | some (.str a) => { sa with arguments := sa.arguments ++ a }
        | _ => sa
      | _ => s1
    insertTS st index s2
  | _ => st

/-- The argument value placed in an assembled tool call by
`buildToolCallsArray`: a non-empty accumulated string is `json.Unmarshal`ed
(abstracted as `parse`), falling back to the raw string on a decode error;
an empty accumulated string becomes the empty object. -/
def parseArgsValue (parse : String → Option JSON) (args : String) : JSON :=
  if args ≠ "" then
    match parse args with
    | some j => j
    | none => .str args
  else .obj []

/-- `buildToolCallsArray` (backend/openai.go): convert the accumulated
state into the Ollama-format tool-call list, iterating indices `0` up to
the maximum seen and skipping gaps. -/
def buildToolCallsArray (parse : String → Option JSON) (st : ToolCallsState) : List JSON :=
  let maxIndex := maxIndexTS st
  if maxIndex < 0 then []
  else
    (List.range (maxIndex.toNat + 1)).filterMap (fun i =>
      match lookupTS st (Int.ofNat i) with
      | none => none
      | some s =>
        some (.obj [("function", .obj
          [("name", .str s.name),
           ("arguments", parseArgsValue parse s.arguments)])]))

/-! ## Streaming chat translation (handleStreamingChat) -/

/-- The loop state of `handleStreamingChat`: running token count, the raw
transcript builder, the sent-final flag and the tool-call accumulator. -/
structure ChatStreamState where
  tokenCount : Int := 0
  rawResponse : String := ""
  sentFinalMessage : Bool := false
  toolCallsState : ToolCallsState := []
deriving DecidableEq

/-- The final (done) chat increment `handleStreamingChat` sends, both at a
backend finish reason and at end of stream. -/
def chatFinalResponse (model reason : String) (elapsed tokenCount : Int) : ChatResponse :=
  { model := model
    message := { role := "assistant", content := "" }
    done := true
    doneReason := reason
    totalDuration := elapsed + 1
    loadDuration := 1
    promptEvalCount := 1
    promptEvalDuration := 1
    evalCount := tokenCount
    evalDuration := elapsed }

/-- The single non-final increment carrying the assembled tool-call set. -/
def chatToolCallsResponse (parse : String → Option JSON) (model : String)
    (st : ToolCallsState) : ChatResponse :=
  { model := model
    message := { role := "assistant", content := "", toolCalls := buildToolCallsArray parse st }
    done := false }

/-- One iteration of the `scanner.Scan()` loop of `handleStreamingChat`:
the line is appended to the raw transcript; non-`data:` lines, the
`[DONE]` sentinel and unparseable payloads are skipped; a finish reason
(when no final increment was sent yet) flushes the accumulated tool calls
and the final increment; tool-call fragments are accumulated without
emitting; non-empty content is emitted as a non-final increment, the role
defaulting to `"assistant"`. -/
def processChatLine (parse : String → Option JSON) (model : String) (elapsed : Int)
    (st : ChatStreamState) (line : ScanLine OpenAIChatResponse) :
    ChatStreamState × List ChatResponse :=
  let st1 := { st with rawResponse := st.rawResponse ++ line.rawText ++ "\n" }
  match line with
  | .other _ => (st1, [])
  | .sentinel => (st1, [])
  | .malformedData _ => (st1, [])
  | .chunk _ resp =>
    match resp.choices with
    | [] => (st1, [])
    | choice :: _ =>
      if choice.finishReason ≠ "" ∧ choice.finishReason ≠ "null" ∧ st1.sentFinalMessage = false then
        ({ st1 with sentFinalMessage := true },
          (if st1.toolCallsState.isEmpty then []
           else [chatToolCallsResponse parse model st1.toolCallsState])
            ++ [chatFinalResponse model choice.finishReason elapsed st1.tokenCount])
      else
        match choice.delta with
        | none => (st1, [])
        | some delta =>
          if delta.toolCalls.isEmpty = false then
            ({ st1 with toolCallsState := delta.toolCalls.foldl accumToolCallDelta st1.toolCallsState }, [])
          else if delta.content ≠ "" then
            ({ st1 with tokenCount := st1.tokenCount + 1 },
              [{ model := model
                 message := { role := if delta.role = "" then "assistant" else delta.role
                              content := delta.content }
                 done := false }])
          else (st1, [])

/-- The whole `scanner.Scan()` loop, folding `processChatLine` over the
stream and concatenating the channel sends in order. -/
def runChatLines (parse : String → Option JSON) (model : String) (elapsed : Int)
    (st : ChatStreamState) : List (ScanLine OpenAIChatResponse) →
    ChatStreamState × List ChatResponse
  | [] => (st, [])
  | l :: rest =>
    let step := processChatLine parse model elapsed st l
    let tail := runChatLines parse model elapsed step.1 rest
    (tail.1, step.2 ++ tail.2)

/-- `handleStreamingChat` (backend/openai.go): run the scan loop over the
whole backend stream, then flush the accumulated tool calls and the
synthesized `"stop"` final increment if no final increment was sent.
Returns the final loop state (whose `rawResponse` is the
`metadata.RawResponse` transcript capture) and the increments sent. -/
def handleStreamingChat (parse : String → Option JSON) (model : String) (elapsed : Int)
    (lines : List (ScanLine OpenAIChatResponse)) : ChatStreamState × List ChatResponse :=
  let run := runChatLines parse model elapsed {} lines
  let st := run.1
  let toolOuts :=
    if st.toolCallsState.isEmpty = false ∧ st.sentFinalMessage = false then
      [chatToolCallsResponse parse model st.toolCallsState]
    else []
  let finalOuts :=
    if st.sentFinalMessage = false then
      [chatFinalResponse model "stop" elapsed st.tokenCount]
    else []
  (st, run.2 ++ toolOuts ++ finalOuts)

/-- The orchestrator's relay loop (handlers/chat.go): each increment read
from the channel is written to the client, and relaying stops right after
the increment marked done.  The result is the client-visible sequence. -/
def relayToClient : List ChatResponse → List ChatResponse
  | [] => []
  | r :: rest => if r.done then [r] else r :: relayToClient rest

/-! ## Streaming generation translation (handleStreamingCompletion) -/

/-- The loop state of `handleStreamingCompletion`. -/
structure CompletionStreamState where
  tokenCount : Int := 0
  rawResponse : String := ""
  sentFinalMessage : Bool := false
deriving DecidableEq

/-- The final (done) generation increment of `handleStreamingCompletion`
(no `LoadDuration` on this path). -/
def completionFinalResponse (model reason : String) (elapsed tokenCount : Int) : GenerateResponse :=
  { model := model
    response := ""
    done := true
    doneReason := reason
    totalDuration := elapsed + 1
    promptEvalCount := 1
    promptEvalDuration := 1
    evalCount := tokenCount
    evalDuration := elapsed }

/-- One iteration of the `scanner.Scan()` loop of
`handleStreamingCompletion`.  Unlike the chat path, every parsed chunk
with a choice and no (first) finish reason emits a non-final increment,
counting it as one token only when its text is non-empty. -/
def processCompletionLine (model : String) (elapsed : Int)
    (st : CompletionStreamState) (line : ScanLine OpenAICompletionResponse) :
    CompletionStreamState × List GenerateResponse :=
  let st1 := { st with rawResponse := st.rawResponse ++ line.rawText ++ "\n" }
  match line with
  | .other _ => (st1, [])
  | .sentinel => (st1, [])
  | .malformedData _ => (st1, [])
  | .chunk _ resp =>
    match resp.choices with
    | [] => (st1, [])
    | choice :: _ =>
      if choice.finishReason ≠ "" ∧ choice.finishReason ≠ "null" ∧ st1.sentFinalMessage = false then
        ({ st1 with sentFinalMessage := true },
          [completionFinalResponse model choice.finishReason elapsed st1.tokenCount])
      else
        let st2 := if choice.text ≠ "" then { st1 with tokenCount := st1.tokenCount + 1 } else st1
        (st2, [{ model := model, response := choice.text, done := false }])

/-- The whole `scanner.Scan()` loop of `handleStreamingCompletion`. -/
def runCompletionLines (model : String) (elapsed : Int)
    (st : CompletionStreamState) : List (ScanLine OpenAICompletionResponse) →
    CompletionStreamState × List GenerateResponse
  | [] => (st, [])
  | l :: rest =>
    let step := processCompletionLine model elapsed st l
    let tail := runCompletionLines model elapsed step.1 rest
    (tail.1, step.2 ++ tail.2)

/-- `handleStreamingCompletion` (backend/openai.go): run the scan loop,
then synthesize the `"stop"` final increment if none was sent. -/
def handleStreamingCompletion (model : String) (elapsed : Int)
    (lines : List (ScanLine OpenAICompletionResponse)) :
    CompletionStreamState × List GenerateResponse :=
  let run := runCompletionLines model elapsed {} lines
  let st := run.1
  let finalOuts :=
    if st.sentFinalMessage = false then
      [completionFinalResponse model "stop" elapsed st.tokenCount]
    else []
  (st, run.2 ++ finalOuts)

/-! ## Non-streaming translation -/

/-- `handleNonStreamingCompletion` (backend/openai.go).  The argument is
the decoded response body (`none` models a read or unmarshal error, after
which Go returns without sending).  Note that this path sets no duration
counters at all. -/
def handleNonStreamingCompletion (model : String)
    (body : Option OpenAICompletionResponse) : List GenerateResponse :=
  match body with
  | none => []
  | some resp =>
    match resp.choices with
    | [] => []
    | choice :: _ =>
      let doneReason := if choice.finishReason ≠ "" then choice.finishReason else "stop"
      let promptTokens := if resp.usage.promptTokens > 0 then resp.usage.promptTokens else 1
      let evalTokens := if resp.usage.completionTokens > 0 then resp.usage.completionTokens else 1
      [{ model := model
         response := choice.text
         done := true
         doneReason := doneReason
         promptEvalCount := promptTokens
         evalCount := evalTokens }]

/-- `handleNonStreamingChat` (backend/openai.go).  Requires a first choice
with a non-nil `Message`; `elapsed` is the single `time.Since(startTime)`
read feeding the duration counters. -/
def handleNonStreamingChat (model : String) (elapsed : Int)
    (body : Option OpenAIChatResponse) : List ChatResponse :=
  match body with
  | none => []
  | some resp =>
    match resp.choices with
    | [] => []
    | choice :: _ =>
      match choice.message with
      | none => []
      | some msg =>
        let doneReason := if choice.finishReason ≠ "" then choice.finishReason else "stop"
        let promptTokens := if resp.usage.promptTokens > 0 then resp.usage.promptTokens else 1
        let evalTokens := if resp.usage.completionTokens > 0 then resp.usage.completionTokens else 1
        [{ model := model
           message := msg
           done := true
           doneReason := doneReason
           totalDuration := elapsed + 1
           loadDuration := 1
           promptEvalCount := promptTokens
           promptEvalDuration := 1
           evalCount := evalTokens
           evalDuration := elapsed }]

/-! ## Model listing (ListModels) -/

/-- The outcome of the adapter's `GET {endpoint}/v1/models` call, as seen
by `ListModels` after its own tests: the transport may fail, or a response
arrives with a status code and a body that either decodes to a list of
model ids or does not (`none`). -/
inductive ListModelsOutcome where
  | failure (msg : String)
  | response (status : Int) (decoded : Option (List String))

/-- The synthetic best-effort model list returned on a degraded backend. -/
def defaultModelsResponse : ModelsResponse :=
  { models := [{ name := "default", model := "default", size := 0, digest := "" }] }

/-- `ListModels` (backend/openai.go): transport errors propagate as
errors; a non-200 status or an undecodable body yields the synthetic
`"default"` model; otherwise each backend id maps to a model info with
zero size and empty digest. -/
def ListModels (outcome : ListModelsOutcome) : Except String ModelsResponse :=
  match outcome with
  | .failure msg => .error ("request failed: " ++ msg)
  | .response status decoded =>
    if status ≠ 200 then .ok defaultModelsResponse
    else
      match decoded with
      | none => .ok defaultModelsResponse
      | some ids =>
        .ok { models := ids.map (fun id => { name := id, model := id, size := 0, digest := "" }) }

/-! ## Orchestrator pre-backend transforms (handlers/chat.go) -/

/-- The first-user-message scan of `applyTextInjection` (mode `"first"`):
index of the first message with role `"user"`. -/
def findFirstUserIdx : List Message → Option Nat
  | [] => none
  | m :: rest =>
    if m.role = "user" then some 0 else (findFirstUserIdx rest).map (· + 1)

/-- The last-user-message scan of `applyTextInjection` (any other mode):
index of the last message with role `"user"`. -/
def findLastUserIdx : List Message → Option Nat
  | [] => none
  | m :: rest =>
    match findLastUserIdx rest with
    | some j => some (j + 1)
    | none => if m.role = "user" then some 0 else none

/-- `applyTextInjection` (handlers/chat.go): locate the first or last user
message per `mode`; if none, or if the injection text already occurs in
its content, leave the messages unchanged; otherwise append the text to
that message's content, preceded by a single space. -/
def applyTextInjection (text mode : String) (msgs : List Message) : List Message :=
  let targetIndex : Option Nat :=
    if mode = "first" then findFirstUserIdx msgs else findLastUserIdx msgs
  match targetIndex with
  | none => msgs
  | some i =>
    match msgs[i]? with
    | none => msgs
    | some m =>
      if goContains m.content text then msgs
      else msgs.set i { m with content := m.content ++ " " ++ text }

/-- The name extraction of `filterTools`: a declared tool's
`function.name` string, or `""` when the tool is not a map, has no
`function` map, or no string `name` (Go's zero-value `toolName`). -/
def extractToolName (t : JSON) : String :=
  match t with
  | .obj tm =>
    match jsonLookup tm "function" with
    | some (.obj fn) =>
      match jsonLookup fn "name" with
      | some (.str n) => n
      | _ => ""
    | _ => ""
  | _ => ""

/-- `filterTools` (handlers/chat.go): keep a tool when its name cannot be
determined (`""`) or is not in the blacklist; drop it otherwise.  The Go
loop appends kept tools in order, i.e. a filter. -/
def filterTools (blacklist : List String) (tools : List JSON) : List JSON :=
  tools.filter (fun t =>
    extractToolName t = "" || !(blacklist.contains (extractToolName t)))

/-- The full raw transcript of a scanned stream: every line verbatim,
each terminated by the newline the capture loop appends. -/
def rawTranscript : List (ScanLine α) → String
  | [] => ""
  | l :: rest => l.rawText ++ "\n" ++ rawTranscript rest

/-! ## Stream-construction helpers and specification-side functions -/

/-- A builder for one streamed tool-call fragment, in the map shape the
backend sends: an `index`, an optional `id`, and a `function` object with
optional `name` and `arguments` strings. -/
def mkToolCallFragment (index : Int) (id name args : Option String) : JSON :=
  .obj ([("index", JSON.num index)]
    ++ (id.map (fun s => ("id", JSON.str s))).toList
    ++ [("function", JSON.obj
          ((name.map (fun s => ("name", JSON.str s))).toList
            ++ (args.map (fun s => ("arguments", JSON.str s))).toList))])

/-- A streamed chunk whose delta carries exactly one tool-call fragment. -/
def toolFragmentChunk (j : JSON) : ScanLine OpenAIChatResponse :=
  .chunk "frag" { choices := [{ delta := some { role := "assistant", content := "", toolCalls := [j] } }] }

/-- The interleaved two-tool-call scenario of C2: idx0-name, idx1-name,
idx0-args-part1, idx0-args-part2, idx1-args. -/
def c2pre : List (ScanLine OpenAIChatResponse) :=
  [toolFragmentChunk (mkToolCallFragment 0 (some "call_a") (some "get_weather") none),
   toolFragmentChunk (mkToolCallFragment 1 (some "call_b") (some "get_time") none),
   toolFragmentChunk (mkToolCallFragment 0 none none (some "\x7b\"city\":")),
   toolFragmentChunk (mkToolCallFragment 0 none none (some "\"Paris\"\x7d")),
   toolFragmentChunk (mkToolCallFragment 1 none none (some "\x7b\"tz\":\"UTC\"\x7d"))]

/-- The finish chunk of the C2 scenario. -/
def c2finish : OpenAIChatResponse :=
  { choices := [{ delta := some { role := "", content := "" }, finishReason := "tool_calls" }] }

/-- A streamed completion chunk carrying one content fragment. -/
def completionContentChunk (raw t : String) : ScanLine OpenAICompletionResponse :=
  .chunk raw { choices := [{ text := t }] }

/-- A streamed completion chunk carrying a finish reason. -/
def completionFinishChunk (raw r : String) : ScanLine OpenAICompletionResponse :=
  .chunk raw { choices := [{ finishReason := r }] }

/-- The last non-empty value among a sequence of optional strings, with a
starting default (how the accumulator's id/name fields evolve). -/
def lastNonEmptyFrom (d : String) (xs : List (Option String)) : String :=
  xs.foldl (fun acc o => match o with | some x => if x ≠ "" then x else acc | none => acc) d

/-- Concatenation, in arrival order, of the present argument fragments. -/
def concatArgsFrom (d : String) (xs : List (Option String)) : String :=
  xs.foldl (fun acc o => match o with | some a => acc ++ a | none => acc) d

/-- The effect of one fragment on a single accumulator entry: any
non-empty id or name overwrites, arguments concatenate. -/
def applyFrag (s : ToolState) (id nm ar : Option String) : ToolState :=
  let s1 := match id with | some x => if x ≠ "" then { s with id := x } else s | none => s
  let s2 := match nm with | some x => if x ≠ "" then { s1 with name := x } else s1 | none => s1
  match ar with | some a => { s2 with arguments := s2.arguments ++ a } | none => s2

/-- The shape `buildToolCallsArray` gives every assembled tool call: a
single `function` object holding exactly a `name` and an `arguments`
field. -/
def wellFormedOllamaToolCall : JSON → Bool
  | .obj [("function", .obj [("name", .str _), ("arguments", _)])] => true
  | _ => false

/-! ## Lemmas: per-line behavior of the chat scan loop -/

/-- Every processed line is appended, verbatim plus a newline, to the raw
transcript capture. -/
theorem chatStep_raw (parse : String → Option JSON) (model : String) (elapsed : Int)
    (st : ChatStreamState) (l : ScanLine OpenAIChatResponse) :
    ((processChatLine parse model elapsed st l).1).rawResponse
      = st.rawResponse ++ l.rawText ++ "\n" := by
  cases l
  all_goals simp only [processChatLine]
  all_goals (repeat' split)
  all_goals rfl

/-- The sent-final flag is monotone across a line. -/
theorem chatStep_sentFinal_mono (parse : String → Option JSON) (model : String) (elapsed : Int)
    (st : ChatStreamState) (l : ScanLine OpenAIChatResponse)
    (h : st.sentFinalMessage = true) :
    ((processChatLine parse model elapsed st l).1).sentFinalMessage = true := by
  cases l <;> simp only [processChatLine] <;> (repeat' split) <;> simp_all

/-- Once the final increment has been sent, a line emits no further done
increments. -/
theorem chatStep_no_done_of_sentFinal (parse : String → Option JSON) (model : String)
    (elapsed : Int) (st : ChatStreamState) (l : ScanLine OpenAIChatResponse)
    (h : st.sentFinalMessage = true) :
    ∀ o ∈ (processChatLine parse model elapsed st l).2, o.done = false := by
  cases l <;> simp only [processChatLine] <;> (repeat' split) <;> simp_all

/-- Before the final increment is sent, a line emits exactly one done
increment iff it flips the sent-final flag. -/
theorem chatStep_countP (parse : String → Option JSON) (model : String) (elapsed : Int)
    (st : ChatStreamState) (l : ScanLine OpenAIChatResponse)
    (h : st.sentFinalMessage = false) :
    List.countP (fun r => r.done) (processChatLine parse model elapsed st l).2
      = if ((processChatLine parse model elapsed st l).1).sentFinalMessage then 1 else 0 := by
  cases l <;> simp only [processChatLine] <;> (repeat' split) <;>
    simp_all [chatFinalResponse, chatToolCallsResponse]

/-- A line that leaves the sent-final flag unset emits only non-final
increments carrying no tool calls. -/
theorem chatStep_clean (parse : String → Option JSON) (model : String) (elapsed : Int)
    (st : ChatStreamState) (l : ScanLine OpenAIChatResponse)
    (h2 : ((processChatLine parse model elapsed st l).1).sentFinalMessage = false) :
    ∀ o ∈ (processChatLine parse model elapsed st l).2,
      o.done = false ∧ o.message.toolCalls = [] := by
  cases l <;> simp only [processChatLine] at h2 ⊢ <;> (repeat' split) <;>
    simp_all

/-- Every done increment a line emits carries the `+1`-biased total
duration and the plain elapsed eval duration. -/
theorem chatStep_final_fields (parse : String → Option JSON) (model : String) (elapsed : Int)
    (st : ChatStreamState) (l : ScanLine OpenAIChatResponse) :
    ∀ o ∈ (processChatLine parse model elapsed st l).2, o.done = true →
      o.totalDuration = elapsed + 1 ∧ o.evalDuration = elapsed := by
  cases l <;> simp only [processChatLine] <;> (repeat' split) <;>
    simp_all [chatFinalResponse, chatToolCallsResponse]

/-! ## Lemmas: the whole chat scan loop -/

/-- The raw transcript after the loop is the initial capture followed by
every line verbatim, each terminated by a newline. -/
theorem runChat_raw (parse : String → Option JSON) (model : String) (elapsed : Int)
    (lines : List (ScanLine OpenAIChatResponse)) (st : ChatStreamState) :
    ((runChatLines parse model elapsed st lines).1).rawResponse
      = st.rawResponse ++ rawTranscript lines := by
  induction lines generalizing st with
  | nil => simp [runChatLines, rawTranscript]
  | cons l rest ih =>
    simp only [runChatLines, rawTranscript]
    rw [ih, chatStep_raw]
    simp [String.append_assoc]

/-- The sent-final flag is monotone across the loop. -/
theorem runChat_sentFinal_mono (parse : String → Option JSON) (model : String) (elapsed : Int)
    (lines : List (ScanLine OpenAIChatResponse)) (st : ChatStreamState)
    (h : st.sentFinalMessage = true) :
    ((runChatLines parse model elapsed st lines).1).sentFinalMessage = true := by
  induction lines generalizing st with
  | nil => simpa [runChatLines]
  | cons l rest ih => exact ih _ (chatStep_sentFinal_mono parse model elapsed st l h)

/-- After the final increment has been sent, the loop emits no further
done increments. -/
theorem runChat_no_done_of_sentFinal (parse : String → Option JSON) (model : String)
    (elapsed : Int) (lines : List (ScanLine OpenAIChatResponse)) (st : ChatStreamState)
    (h : st.sentFinalMessage = true) :
    ∀ o ∈ (runChatLines parse model elapsed st lines).2, o.done = false := by
  induction lines generalizing st with
  | nil => simp [runChatLines]
  | cons l rest ih =>
    intro o ho
    simp only [runChatLines, List.mem_append] at ho
    rcases ho with ho | ho
    · exact chatStep_no_done_of_sentFinal parse model elapsed st l h o ho
    · exact ih _ (chatStep_sentFinal_mono parse model elapsed st l h) o ho

/-- Starting before any final increment, the loop emits exactly one done
increment iff it ends with the sent-final flag set. -/
theorem runChat_countP (parse : String → Option JSON) (model : String) (elapsed : Int)
    (lines : List (ScanLine OpenAIChatResponse)) (st : ChatStreamState)
    (h : st.sentFinalMessage = false) :
    List.countP (fun r => r.done) (runChatLines parse model elapsed st lines).2
      = if ((runChatLines parse model elapsed st lines).1).sentFinalMessage then 1 else 0 := by
  induction lines generalizing st with
  | nil => simp [runChatLines, h]
  | cons l rest ih =>
    simp only [runChatLines, List.countP_append]
    rcases hs : ((processChatLine parse model elapsed st l).1).sentFinalMessage with _ | _
    · rw [ih _ hs, chatStep_countP parse model elapsed st l h, hs]
      simp
    · rw [chatStep_countP parse model elapsed st l h, hs]
      have hz : List.countP (fun r => r.done)
          (runChatLines parse model elapsed (processChatLine parse model elapsed st l).1 rest).2 = 0 := by
        rw [List.countP_eq_zero]
        intro o ho
        simpa using runChat_no_done_of_sentFinal parse model elapsed rest _ hs o ho
      rw [hz]
      simp [runChat_sentFinal_mono parse model elapsed rest _ hs]

/-- A loop run that never sets the sent-final flag emits only non-final
increments carrying no tool calls. -/
theorem runChat_clean (parse : String → Option JSON) (model : String) (elapsed : Int)
    (lines : List (ScanLine OpenAIChatResponse)) (st : ChatStreamState)
    (h2 : ((runChatLines parse model elapsed st lines).1).sentFinalMessage = false) :
    ∀ o ∈ (runChatLines parse model elapsed st lines).2,
      o.done = false ∧ o.message.toolCalls = [] := by
  induction lines generalizing st with
  | nil => simp [runChatLines]
  | cons l rest ih =>
    intro o ho
    simp only [runChatLines, List.mem_append] at ho
    simp only [runChatLines] at h2
    have hstep : ((processChatLine parse model elapsed st l).1).sentFinalMessage = false := by
      rcases hs : ((processChatLine parse model elapsed st l).1).sentFinalMessage with _ | _
      · rfl
      · rw [runChat_sentFinal_mono parse model elapsed rest _ hs] at h2; cases h2
    rcases ho with ho | ho
    · exact chatStep_clean parse model elapsed st l hstep o ho
    · exact ih _ h2 o ho

/-- Every done increment the loop emits carries the `+1`-biased total
duration and the plain elapsed eval duration. -/
theorem runChat_final_fields (parse : String → Option JSON) (model : String) (elapsed : Int)
    (lines : List (ScanLine OpenAIChatResponse)) (st : ChatStreamState) :
    ∀ o ∈ (runChatLines parse model elapsed st lines).2, o.done = true →
      o.totalDuration = elapsed + 1 ∧ o.evalDuration = elapsed := by
  induction lines generalizing st with
  | nil => simp [runChatLines]
  | cons l rest ih =>
    intro o ho hdone
    simp only [runChatLines, List.mem_append] at ho
    rcases ho with ho | ho
    · exact chatStep_final_fields parse model elapsed st l o ho hdone
    · exact ih _ o ho hdone

/-- Splitting the loop across a concatenation of line lists (state). -/
theorem runChat_append_fst (parse : String → Option JSON) (model : String) (elapsed : Int)
    (xs ys : List (ScanLine OpenAIChatResponse)) (st : ChatStreamState) :
    (runChatLines parse model elapsed st (xs ++ ys)).1
      = (runChatLines parse model elapsed (runChatLines parse model elapsed st xs).1 ys).1 := by
  induction xs generalizing st with
  | nil => simp [runChatLines]
  | cons l rest ih => simp only [List.cons_append, runChatLines]; exact ih _

/-- Splitting the loop across a concatenation of line lists (output). -/
theorem runChat_append_snd (parse : String → Option JSON) (model : String) (elapsed : Int)
    (xs ys : List (ScanLine OpenAIChatResponse)) (st : ChatStreamState) :
    (runChatLines parse model elapsed st (xs ++ ys)).2
      = (runChatLines parse model elapsed st xs).2
        ++ (runChatLines parse model elapsed (runChatLines parse model elapsed st xs).1 ys).2 := by
  induction xs generalizing st with
  | nil => simp [runChatLines]
  | cons l rest ih =>
    simp only [List.cons_append, runChatLines, List.append_eq]
    rw [ih]
    simp [List.append_assoc]

/-! ## Lemmas: the client relay -/

/-- Relaying a sequence with no done increment forwards all of it. -/
theorem relay_no_done (l : List ChatResponse) (h : ∀ x ∈ l, x.done = false) :
    relayToClient l = l := by
  induction l with
  | nil => rfl
  | cons r rest ih =>
    have hr := h r (List.mem_cons_self r rest)
    simp [relayToClient, hr, ih (fun x hx => h x (List.mem_cons_of_mem r hx))]

/-- Relaying stops right after the first done increment. -/
theorem relay_through (xs : List ChatResponse) (r : ChatResponse) (rest : List ChatResponse)
    (hxs : ∀ x ∈ xs, x.done = false) (hr : r.done = true) :
    relayToClient (xs ++ r :: rest) = xs ++ [r] := by
  induction xs with
  | nil => simp [relayToClient, hr]
  | cons x xs ih =>
    have hx := hxs x (List.mem_cons_self x xs)
    simp only [List.cons_append, relayToClient, hx]
    simp [ih (fun y hy => hxs y (List.mem_cons_of_mem x hy))]

/-- A list with exactly one done element splits around its first (and
only) done element. -/
theorem exists_done_split (l : List ChatResponse)
    (h : List.countP (fun r => r.done) l = 1) :
    ∃ xs r ys, l = xs ++ r :: ys ∧ r.done = true ∧ (∀ x ∈ xs, x.done = false)
      ∧ (∀ y ∈ ys, y.done = false) := by
  induction l with
  | nil => simp [List.countP_nil] at h
  | cons a rest ih =>
    rcases ha : a.done with _ | _
    · have hrest : List.countP (fun r => r.done) rest = 1 := by
        simpa [List.countP_cons, ha] using h
      obtain ⟨xs, r, ys, hsplit, hr, hxs, hys⟩ := ih hrest
      exact ⟨a :: xs, r, ys, by simp [hsplit], hr,
        fun x hx => by
          rcases List.mem_cons.mp hx with hx | hx
          · subst hx; exact ha
          · exact hxs x hx, hys⟩
    · have hrest : List.countP (fun r => r.done) rest = 0 := by
        have h' := h
        rw [List.countP_cons] at h'
        simp only [ha, if_true] at h'
        omega
      refine ⟨[], a, rest, by simp, ha, by simp, ?_⟩
      intro y hy
      have := List.countP_eq_zero.mp hrest y hy
      simpa using this

/-- Processing the first finish-reason chunk while tool calls are
accumulated: the handler flushes the assembled tool-call increment and the
final increment, in that order, and marks the final as sent. -/
theorem chatStep_finish (parse : String → Option JSON) (model : String) (elapsed : Int)
    (st : ChatStreamState) (payload : String) (fr : OpenAIChatResponse)
    (choice : OpenAIChatChoice) (rest : List OpenAIChatChoice)
    (hch : fr.choices = choice :: rest)
    (hr1 : choice.finishReason ≠ "") (hr2 : choice.finishReason ≠ "null")
    (hsf : st.sentFinalMessage = false) (hts : st.toolCallsState.isEmpty = false) :
    processChatLine parse model elapsed st (ScanLine.chunk payload fr)
      = ({ st with
            rawResponse := st.rawResponse ++ "data: " ++ payload ++ "\n"
            sentFinalMessage := true },
         [chatToolCallsResponse parse model st.toolCallsState,
          chatFinalResponse model choice.finishReason elapsed st.tokenCount]) := by
  simp only [processChatLine, ScanLine.rawText, hch]
  rw [if_pos ⟨hr1, hr2, hsf⟩, if_neg (by simp [hts])]
  simp [String.append_assoc]

/-! ## Lemmas: tool-call fragment accumulation -/

/-- Inserting then looking up the same index. -/
theorem lookupTS_insertTS_self (st : ToolCallsState) (i : Int) (v : ToolState) :
    lookupTS (insertTS st i v) i = some v := by
  induction st with
  | nil => simp [insertTS, lookupTS]
  | cons kv rest ih =>
    by_cases hk : kv.1 = i <;> simp [insertTS, lookupTS, hk, ih]

/-- Accumulating one well-shaped fragment updates exactly its index's
entry, via `applyFrag`. -/
theorem accum_mkToolCallFragment (st : ToolCallsState) (i : Int)
    (id nm ar : Option String) :
    accumToolCallDelta st (mkToolCallFragment i id nm ar)
      = insertTS st i (applyFrag ((lookupTS st i).getD {}) id nm ar) := by
  cases id <;> cases nm <;> cases ar <;>
    simp [accumToolCallDelta, mkToolCallFragment, applyFrag, jsonLookup]

/-- Folding fragments for one index preserves and transforms that index's
existing entry via `applyFrag`. -/
theorem fold_accum_lookup_aux (i : Int)
    (frags : List (Option String × Option String × Option String)) :
    ∀ (st : ToolCallsState) (s0 : ToolState), lookupTS st i = some s0 →
    lookupTS (frags.foldl
        (fun ts f => accumToolCallDelta ts (mkToolCallFragment i f.1 f.2.1 f.2.2)) st) i
      = some (frags.foldl (fun s f => applyFrag s f.1 f.2.1 f.2.2) s0) := by
  induction frags with
  | nil => intro st s0 h; simpa using h
  | cons f rest ih =>
    intro st s0 h
    rw [List.foldl_cons, List.foldl_cons]
    apply ih
    rw [accum_mkToolCallFragment, lookupTS_insertTS_self, h]
    rfl

/-- Folding a non-empty fragment sequence for one index into an empty
accumulator and looking that index up yields the `applyFrag`-fold of the
fragments from the zero-value entry. -/
theorem fold_accum_lookup (i : Int)
    (frags : List (Option String × Option String × Option String))
    (hne : frags ≠ []) :
    lookupTS (frags.foldl
        (fun ts f => accumToolCallDelta ts (mkToolCallFragment i f.1 f.2.1 f.2.2)) []) i
      = some (frags.foldl (fun s f => applyFrag s f.1 f.2.1 f.2.2) {}) := by
  rcases frags with _ | ⟨f, rest⟩
  · cases hne rfl
  · rw [List.foldl_cons, List.foldl_cons]
    apply fold_accum_lookup_aux
    rw [accum_mkToolCallFragment, lookupTS_insertTS_self]
    rfl

/-- The `applyFrag` fold, field by field: id and name are the last
non-empty values, arguments are concatenated in arrival order. -/
theorem applyFrag_fold_fields
    (frags : List (Option String × Option String × Option String)) (s : ToolState) :
    frags.foldl (fun s f => applyFrag s f.1 f.2.1 f.2.2) s
      = { id := lastNonEmptyFrom s.id (frags.map (·.1)),
          name := lastNonEmptyFrom s.name (frags.map (·.2.1)),
          arguments := concatArgsFrom s.arguments (frags.map (·.2.2)) } := by
  induction frags generalizing s with
  | nil => simp [lastNonEmptyFrom, concatArgsFrom]
  | cons f rest ih =>
    simp only [List.foldl, List.map, lastNonEmptyFrom, concatArgsFrom] at ih ⊢
    rw [ih]
    rcases f with ⟨id, nm, ar⟩
    cases id <;> cases nm <;> cases ar <;>
      simp only [applyFrag] <;> (repeat' split) <;> simp_all

/-- A streamed tool-call fragment chunk updates only the accumulator. -/
theorem chatStep_fragment_ts (parse : String → Option JSON) (model : String) (elapsed : Int)
    (st : ChatStreamState) (j : JSON) :
    ((processChatLine parse model elapsed st (toolFragmentChunk j)).1).toolCallsState
      = accumToolCallDelta st.toolCallsState j := by
  simp [processChatLine, toolFragmentChunk]

/-- Running the scan loop over streamed fragment chunks folds the
accumulation function over the fragments. -/
theorem runChat_fragments_ts (parse : String → Option JSON) (model : String) (elapsed : Int)
    (i : Int) (frags : List (Option String × Option String × Option String))
    (st : ChatStreamState) :
    ((runChatLines parse model elapsed st
        (frags.map (fun f => toolFragmentChunk (mkToolCallFragment i f.1 f.2.1 f.2.2)))).1).toolCallsState
      = frags.foldl
          (fun ts f => accumToolCallDelta ts (mkToolCallFragment i f.1 f.2.1 f.2.2))
          st.toolCallsState := by
  induction frags generalizing st with
  | nil => simp [runChatLines]
  | cons f rest ih =>
    simp only [List.map, runChatLines, List.foldl]
    rw [ih]
    rw [chatStep_fragment_ts]

/-! ## Lemmas: the generation scan loop -/

/-- Splitting the generation loop across a concatenation (state). -/
theorem runCompletion_append_fst (model : String) (elapsed : Int)
    (xs ys : List (ScanLine OpenAICompletionResponse)) (st : CompletionStreamState) :
    (runCompletionLines model elapsed st (xs ++ ys)).1
      = (runCompletionLines model elapsed (runCompletionLines model elapsed st xs).1 ys).1 := by
  induction xs generalizing st with
  | nil => simp [runCompletionLines]
  | cons l rest ih => simp only [List.cons_append, runCompletionLines]; exact ih _

/-- Splitting the generation loop across a concatenation (output). -/
theorem runCompletion_append_snd (model : String) (elapsed : Int)
    (xs ys : List (ScanLine OpenAICompletionResponse)) (st : CompletionStreamState) :
    (runCompletionLines model elapsed st (xs ++ ys)).2
      = (runCompletionLines model elapsed st xs).2
        ++ (runCompletionLines model elapsed (runCompletionLines model elapsed st xs).1 ys).2 := by
  induction xs generalizing st with
  | nil => simp [runCompletionLines]
  | cons l rest ih =>
    simp only [List.cons_append, runCompletionLines, List.append_eq]
    rw [ih]
    simp [List.append_assoc]

/-- Running the generation loop over non-empty content fragments emits one
non-final increment per fragment, in order, counts one token per fragment,
and leaves the sent-final flag untouched. -/
theorem runCompletion_content (model : String) (elapsed : Int)
    (frags : List (String × String)) :
    ∀ (st : CompletionStreamState), (∀ f ∈ frags, f.2 ≠ "") →
    (runCompletionLines model elapsed st
        (frags.map (fun f => completionContentChunk f.1 f.2))).2
      = frags.map (fun f => ({ model := model, response := f.2, done := false } : GenerateResponse))
    ∧ ((runCompletionLines model elapsed st
        (frags.map (fun f => completionContentChunk f.1 f.2))).1).sentFinalMessage
      = st.sentFinalMessage
    ∧ ((runCompletionLines model elapsed st
        (frags.map (fun f => completionContentChunk f.1 f.2))).1).tokenCount
      = st.tokenCount + frags.length := by
  induction frags with
  | nil => intro st _; simp [runCompletionLines]
  | cons f rest ih =>
    intro st hne
    have hf : f.2 ≠ "" := hne f (List.mem_cons_self f rest)
    have hstep : processCompletionLine model elapsed st (completionContentChunk f.1 f.2)
        = ({ st with
              rawResponse := st.rawResponse ++ ("data: " ++ f.1) ++ "\n"
              tokenCount := st.tokenCount + 1 },
           [{ model := model, response := f.2, done := false }]) := by
      simp only [processCompletionLine, completionContentChunk, ScanLine.rawText]
      rw [if_neg (by simp), if_pos hf]
    obtain ⟨h1, h2, h3⟩ := ih ({ st with
        rawResponse := st.rawResponse ++ ("data: " ++ f.1) ++ "\n"
        tokenCount := st.tokenCount + 1 })
      (fun g hg => hne g (List.mem_cons_of_mem f hg))
    refine ⟨?_, ?_, ?_⟩
    · simp only [List.map, runCompletionLines]
      rw [hstep]
      simp only [h1]
      rfl
    · simp only [List.map, runCompletionLines]
      rw [hstep]
      simpa using h2
    · simp only [List.map, runCompletionLines]
      rw [hstep]
      rw [h3]
      simp only [List.length_cons]
      push_cast
      ring

/-- Processing a finish-reason chunk (with the final not yet sent) emits
exactly the final increment and sets the flag; the trailing sentinel emits
nothing. -/
theorem runCompletion_finish_tail (model : String) (elapsed : Int)
    (raw r : String) (st : CompletionStreamState)
    (hr1 : r ≠ "") (hr2 : r ≠ "null") (hsf : st.sentFinalMessage = false) :
    (runCompletionLines model elapsed st [completionFinishChunk raw r, .sentinel]).2
      = [completionFinalResponse model r elapsed st.tokenCount]
    ∧ ((runCompletionLines model elapsed st
        [completionFinishChunk raw r, .sentinel]).1).sentFinalMessage = true := by
  have hstep : processCompletionLine model elapsed st (completionFinishChunk raw r)
      = ({ st with
            rawResponse := st.rawResponse ++ ("data: " ++ raw) ++ "\n"
            sentFinalMessage := true },
         [completionFinalResponse model r elapsed st.tokenCount]) := by
    simp only [processCompletionLine, completionFinishChunk, ScanLine.rawText]
    rw [if_pos ⟨hr1, hr2, hsf⟩]
  constructor
  · simp only [runCompletionLines]
    rw [hstep]
    simp [processCompletionLine]
  · simp only [runCompletionLines]
    rw [hstep]
    simp [processCompletionLine]

/-! ## Lemmas: substring search and text injection -/

theorem isLeadingPart_refl (l : List Char) : isLeadingPart l l = true := by
  induction l with
  | nil => rfl
  | cons a rest ih => simp [isLeadingPart, ih]

theorem occursIn_of_leading (sub l : List Char) (h : isLeadingPart sub l = true) :
    occursIn sub l = true := by
  cases l with
  | nil =>
    cases sub with
    | nil => rfl
    | cons a as => simp [isLeadingPart] at h
  | cons a rest => simp [occursIn, h]

theorem occursIn_append_right (sub pre l : List Char) (h : occursIn sub l = true) :
    occursIn sub (pre ++ l) = true := by
  induction pre with
  | nil => simpa using h
  | cons p pre ih => simp [occursIn, ih]

/-- Appending the injection text (after a space) makes it occur as a
substring of the result. -/
theorem goContains_append_self (c text : String) :
    goContains (c ++ " " ++ text) text = true := by
  have hdata : (c ++ " " ++ text).data = (c.data ++ [' ']) ++ text.data := by
    simp [String.data_append]
  simp only [goContains, hdata]
  exact occursIn_append_right _ _ _ (occursIn_of_leading _ _ (isLeadingPart_refl _))

theorem getElem?_set_self' (l : List α) (i : Nat) (a : α) (h : i < l.length) :
    (l.set i a)[i]? = some a := by
  induction l generalizing i with
  | nil => simp at h
  | cons b rest ih =>
    cases i with
    | zero => simp
    | succ j => simpa using ih j (by simpa using h)

theorem getElem?_some_lt (l : List α) (i : Nat) (a : α) (h : l[i]? = some a) :
    i < l.length := by
  induction l generalizing i with
  | nil => simp at h
  | cons b rest ih =>
    cases i with
    | zero => simp
    | succ j => simpa using ih j (by simpa using h)

/-- The first-user scan only looks at roles, so replacing a message with
one of the same role does not move it. -/
theorem findFirstUserIdx_set (msgs : List Message) (i : Nat) (m' : Message)
    (h : ∀ mm, msgs[i]? = some mm → m'.role = mm.role) :
    findFirstUserIdx (msgs.set i m') = findFirstUserIdx msgs := by
  induction msgs generalizing i with
  | nil => rfl
  | cons a rest ih =>
    cases i with
    | zero =>
      have hrole : m'.role = a.role := h a (by simp)
      simp [findFirstUserIdx, List.set, hrole]
    | succ j =>
      have hrest := ih j (fun mm hm => h mm (by simpa using hm))
      simp [findFirstUserIdx, List.set, hrest]

/-- The last-user scan only looks at roles, so replacing a message with
one of the same role does not move it. -/
theorem findLastUserIdx_set (msgs : List Message) (i : Nat) (m' : Message)
    (h : ∀ mm, msgs[i]? = some mm → m'.role = mm.role) :
    findLastUserIdx (msgs.set i m') = findLastUserIdx msgs := by
  induction msgs generalizing i with
  | nil => rfl
  | cons a rest ih =>
    cases i with
    | zero =>
      have hrole : m'.role = a.role := h a (by simp)
      simp [findLastUserIdx, List.set, hrole]
    | succ j =>
      have hrest := ih j (fun mm hm => h mm (by simpa using hm))
      simp [findLastUserIdx, List.set, hrest]

/-- Every done increment a generation line emits carries the `+1`-biased
total duration and the plain elapsed eval duration. -/
theorem completionStep_final_fields (model : String) (elapsed : Int)
    (st : CompletionStreamState) (l : ScanLine OpenAICompletionResponse) :
    ∀ o ∈ (processCompletionLine model elapsed st l).2, o.done = true →
      o.totalDuration = elapsed + 1 ∧ o.evalDuration = elapsed := by
  cases l <;> simp only [processCompletionLine] <;> (repeat' split) <;>
    simp_all [completionFinalResponse]

/-- Every done increment the generation loop emits carries the
`+1`-biased total duration and the plain elapsed eval duration. -/
theorem runCompletion_final_fields (model : String) (elapsed : Int)
    (lines : List (ScanLine OpenAICompletionResponse)) (st : CompletionStreamState) :
    ∀ o ∈ (runCompletionLines model elapsed st lines).2, o.done = true →
      o.totalDuration = elapsed + 1 ∧ o.evalDuration = elapsed := by
  induction lines generalizing st with
  | nil => simp [runCompletionLines]
  | cons l rest ih =>
    intro o ho hdone
    simp only [runCompletionLines, List.mem_append] at ho
    rcases ho with ho | ho
    · exact completionStep_final_fields model elapsed st l o ho hdone
    · exact ih _ o ho hdone

/-! ## Claim theorems -/

/-- Claim C1: for every streamed backend chat exchange processed by
`handleStreamingChat`, the handler emits exactly one increment with
`done = true`; in the client-visible sequence (the orchestrator relay,
which stops at the done increment) that final increment occurs exactly
once and is the last increment delivered; and processing is never
terminated by the `[DONE]` sentinel or a finish reason: the raw-transcript
capture contains every backend line of the stream, including those after
the final increment. -/
theorem claim_C1_streaming_chat_single_final (parse : String → Option JSON)
    (model : String) (elapsed : Int) (lines : List (ScanLine OpenAIChatResponse)) :
    List.countP (fun r => r.done) (handleStreamingChat parse model elapsed lines).2 = 1
    ∧ List.countP (fun r => r.done)
        (relayToClient (handleStreamingChat parse model elapsed lines).2) = 1
    ∧ (∃ r, (relayToClient (handleStreamingChat parse model elapsed lines).2).getLast? = some r
        ∧ r.done = true)
    ∧ ((handleStreamingChat parse model elapsed lines).1).rawResponse = rawTranscript lines := by
  have hinit : (({} : ChatStreamState)).sentFinalMessage = false := rfl
  have hcount1 :
      List.countP (fun r => r.done) (handleStreamingChat parse model elapsed lines).2 = 1 := by
    simp only [handleStreamingChat, List.countP_append]
    rw [runChat_countP parse model elapsed lines {} hinit]
    rcases hfin : ((runChatLines parse model elapsed {} lines).1).sentFinalMessage with _ | _ <;>
      (repeat' split) <;>
      simp_all [chatToolCallsResponse, chatFinalResponse, List.countP_cons]
  refine ⟨hcount1, ?_, ?_, ?_⟩
  · obtain ⟨xs, r, ys, hsplit, hr, hxs, _⟩ := exists_done_split _ hcount1
    rw [hsplit, relay_through xs r ys hxs hr, List.countP_append]
    have hz : List.countP (fun r => r.done) xs = 0 :=
      List.countP_eq_zero.mpr (fun x hx => by simp [hxs x hx])
    simp [hz, hr]
  · obtain ⟨xs, r, ys, hsplit, hr, hxs, _⟩ := exists_done_split _ hcount1
    rw [hsplit, relay_through xs r ys hxs hr]
    exact ⟨r, List.getLast?_concat _, hr⟩
  · simp only [handleStreamingChat]
    rw [runChat_raw parse model elapsed lines {}]
    rfl

/-- Claim C2: in a streamed chat exchange whose accumulated tool-call state
is non-empty when the backend's first finish-reason chunk arrives, no
tool-call fragment is forwarded individually: every client-visible
increment before the flush carries no tool calls and is non-final, and the
client-visible sequence ends with exactly one non-final increment carrying
the complete assembled tool-call set (`buildToolCallsArray`, which
iterates indices 0..max skipping gaps and parses each concatenated
argument string with raw-string fallback), immediately followed by the
final increment; the same flush happens at end of stream when no finish
reason ever arrived. -/
theorem claim_C2_tool_calls_flushed_once (parse : String → Option JSON)
    (model : String) (elapsed : Int)
    (pre post : List (ScanLine OpenAIChatResponse)) (payload : String)
    (fr : OpenAIChatResponse) (choice : OpenAIChatChoice) (rest : List OpenAIChatChoice)
    (lines2 : List (ScanLine OpenAIChatResponse))
    (hch : fr.choices = choice :: rest)
    (hr1 : choice.finishReason ≠ "") (hr2 : choice.finishReason ≠ "null")
    (hpre : ((runChatLines parse model elapsed {} pre).1).sentFinalMessage = false)
    (hts : ((runChatLines parse model elapsed {} pre).1).toolCallsState.isEmpty = false) :
    relayToClient (handleStreamingChat parse model elapsed
        (pre ++ ScanLine.chunk payload fr :: post)).2
      = (runChatLines parse model elapsed {} pre).2
        ++ [chatToolCallsResponse parse model
              ((runChatLines parse model elapsed {} pre).1).toolCallsState,
            chatFinalResponse model choice.finishReason elapsed
              ((runChatLines parse model elapsed {} pre).1).tokenCount]
    ∧ (∀ o ∈ (runChatLines parse model elapsed {} pre).2,
        o.done = false ∧ o.message.toolCalls = [])
    ∧ (chatToolCallsResponse parse model
        ((runChatLines parse model elapsed {} pre).1).toolCallsState).message.toolCalls
      = buildToolCallsArray parse ((runChatLines parse model elapsed {} pre).1).toolCallsState
    ∧ (chatToolCallsResponse parse model
        ((runChatLines parse model elapsed {} pre).1).toolCallsState).done = false
    ∧ (chatFinalResponse model choice.finishReason elapsed
        ((runChatLines parse model elapsed {} pre).1).tokenCount).done = true
    ∧ (((runChatLines parse model elapsed {} lines2).1).sentFinalMessage = false →
       ((runChatLines parse model elapsed {} lines2).1).toolCallsState.isEmpty = false →
       (handleStreamingChat parse model elapsed lines2).2
         = (runChatLines parse model elapsed {} lines2).2
           ++ [chatToolCallsResponse parse model
                 ((runChatLines parse model elapsed {} lines2).1).toolCallsState,
               chatFinalResponse model "stop" elapsed
                 ((runChatLines parse model elapsed {} lines2).1).tokenCount]) := by
  refine ⟨?_, runChat_clean parse model elapsed pre {} hpre, rfl, rfl, rfl, ?_⟩
  case refine_2 =>
    intro hf2 ht2
    simp only [handleStreamingChat, hf2, ht2]
    simp
  have hstep := chatStep_finish parse model elapsed
    (runChatLines parse model elapsed {} pre).1 payload fr choice rest hch hr1 hr2 hpre hts
  have houts : (handleStreamingChat parse model elapsed
      (pre ++ ScanLine.chunk payload fr :: post)).2
      = (runChatLines parse model elapsed {} pre).2
        ++ ([chatToolCallsResponse parse model
              ((runChatLines parse model elapsed {} pre).1).toolCallsState,
             chatFinalResponse model choice.finishReason elapsed
               ((runChatLines parse model elapsed {} pre).1).tokenCount]
            ++ (runChatLines parse model elapsed
                 (processChatLine parse model elapsed
                   (runChatLines parse model elapsed {} pre).1
                   (ScanLine.chunk payload fr)).1 post).2) := by
    have hmid : (runChatLines parse model elapsed
        (runChatLines parse model elapsed {} pre).1 (ScanLine.chunk payload fr :: post)).2
        = [chatToolCallsResponse parse model
             ((runChatLines parse model elapsed {} pre).1).toolCallsState,
           chatFinalResponse model choice.finishReason elapsed
             ((runChatLines parse model elapsed {} pre).1).tokenCount]
          ++ (runChatLines parse model elapsed
               (processChatLine parse model elapsed
                 (runChatLines parse model elapsed {} pre).1
                 (ScanLine.chunk payload fr)).1 post).2 := by
      simp only [runChatLines]
      rw [hstep]
    have hendfin : ((runChatLines parse model elapsed {}
        (pre ++ ScanLine.chunk payload fr :: post)).1).sentFinalMessage = true := by
      rw [runChat_append_fst]
      simp only [runChatLines]
      apply runChat_sentFinal_mono
      rw [hstep]
    simp only [handleStreamingChat, hendfin]
    rw [runChat_append_snd, hmid]
    simp
  rw [houts]
  have hclean := runChat_clean parse model elapsed pre {} hpre
  have hpost : ∀ o ∈ (runChatLines parse model elapsed
      (processChatLine parse model elapsed
        (runChatLines parse model elapsed {} pre).1
        (ScanLine.chunk payload fr)).1 post).2, o.done = false := by
    apply runChat_no_done_of_sentFinal
    rw [hstep]
  have hshape : (runChatLines parse model elapsed {} pre).2
      ++ ([chatToolCallsResponse parse model
            ((runChatLines parse model elapsed {} pre).1).toolCallsState,
           chatFinalResponse model choice.finishReason elapsed
             ((runChatLines parse model elapsed {} pre).1).tokenCount]
          ++ (runChatLines parse model elapsed
               (processChatLine parse model elapsed
                 (runChatLines parse model elapsed {} pre).1
                 (ScanLine.chunk payload fr)).1 post).2)
      = ((runChatLines parse model elapsed {} pre).2
          ++ [chatToolCallsResponse parse model
                ((runChatLines parse model elapsed {} pre).1).toolCallsState])
        ++ (chatFinalResponse model choice.finishReason elapsed
              ((runChatLines parse model elapsed {} pre).1).tokenCount)
          :: (runChatLines parse model elapsed
               (processChatLine parse model elapsed
                 (runChatLines parse model elapsed {} pre).1
                 (ScanLine.chunk payload fr)).1 post).2 := by
    simp
  rw [hshape, relay_through]
  · simp
  · intro x hx
    rcases List.mem_append.mp hx with hx | hx
    · exact (hclean x hx).1
    · rcases List.mem_singleton.mp hx with rfl
      rfl
  · rfl

/-- Witness for C2, on the interleaved scenario: the client-visible tail
is exactly one non-final increment with both tool calls ordered by index —
idx0's arguments being the concatenation of its two fragments (here kept
as the raw string because the witness `parse` rejects everything) —
immediately followed by the final increment. -/
theorem claim_C2_witness :
    relayToClient (handleStreamingChat (fun _ => none) "m" 5
        (c2pre ++ ScanLine.chunk "fin" c2finish :: [ScanLine.sentinel])).2
      = [chatToolCallsResponse (fun _ => none) "m"
           [(0, { id := "call_a", name := "get_weather", arguments := "\x7b\"city\":\"Paris\"\x7d" }),
            (1, { id := "call_b", name := "get_time", arguments := "\x7b\"tz\":\"UTC\"\x7d" })],
         chatFinalResponse "m" "tool_calls" 5 0]
    ∧ buildToolCallsArray (fun _ => none)
        [(0, { id := "call_a", name := "get_weather", arguments := "\x7b\"city\":\"Paris\"\x7d" }),
         (1, { id := "call_b", name := "get_time", arguments := "\x7b\"tz\":\"UTC\"\x7d" })]
      = [JSON.obj [("function", JSON.obj [("name", JSON.str "get_weather"),
           ("arguments", JSON.str "\x7b\"city\":\"Paris\"\x7d")])],
         JSON.obj [("function", JSON.obj [("name", JSON.str "get_time"),
           ("arguments", JSON.str "\x7b\"tz\":\"UTC\"\x7d")])]] := by
  constructor
  · have h := (claim_C2_tool_calls_flushed_once (fun _ => none) "m" 5
      c2pre [ScanLine.sentinel] "fin" c2finish
      { delta := some { role := "", content := "" }, finishReason := "tool_calls" } [] []
      rfl (by decide) (by decide) rfl rfl).1
    exact h.trans rfl
  · rfl

/-- Claim C3, counterexample: two fragments on index 0 both carrying
non-empty ids and names — after the first fragment the accumulator
records `call_a`/`get_w`, after the second it records `call_b`/`get_t`:
the later non-empty values *do* replace the already-recorded ones,
refuting the claim's "first non-empty value wins". -/
theorem claim_C3_counterexample :
    lookupTS ((runChatLines (fun _ => none) "m" 0 {}
        [toolFragmentChunk (mkToolCallFragment 0 (some "call_a") (some "get_w") none)]).1).toolCallsState 0
      = some { id := "call_a", name := "get_w", arguments := "" }
    ∧ lookupTS ((runChatLines (fun _ => none) "m" 0 {}
        [toolFragmentChunk (mkToolCallFragment 0 (some "call_a") (some "get_w") none),
         toolFragmentChunk (mkToolCallFragment 0 (some "call_b") (some "get_t") none)]).1).toolCallsState 0
      = some { id := "call_b", name := "get_t", arguments := "" }
    ∧ ("call_b" : String) ≠ "call_a" ∧ ("get_t" : String) ≠ "get_w" := by
  exact ⟨rfl, rfl, by decide, by decide⟩

/-- Claim C3 (amended): for every non-empty sequence of streamed tool-call
fragments sharing one backend-assigned index, the accumulator's entry for
that index records as call ID and function name the *last* non-empty value
seen (later non-empty values replace earlier ones), while the arguments
field is the concatenation of every fragment's arguments string in arrival
order. -/
theorem claim_C3_accumulator_last_wins_args_concat
    (parse : String → Option JSON) (model : String) (elapsed : Int) (i : Int)
    (frags : List (Option String × Option String × Option String))
    (hne : frags ≠ []) :
    lookupTS ((runChatLines parse model elapsed {}
        (frags.map (fun f => toolFragmentChunk (mkToolCallFragment i f.1 f.2.1 f.2.2)))).1).toolCallsState i
      = some { id := lastNonEmptyFrom "" (frags.map (·.1)),
               name := lastNonEmptyFrom "" (frags.map (·.2.1)),
               arguments := concatArgsFrom "" (frags.map (·.2.2)) } := by
  rw [runChat_fragments_ts]
  have h0 : (({} : ChatStreamState)).toolCallsState = [] := rfl
  rw [h0, fold_accum_lookup i frags hne, applyFrag_fold_fields]

/-- Witness for the amended C3: three fragments on one index — id `call_a`
then an empty id then `call_c`, name `f` then `g`, arguments `a1` then
`a2` — accumulate to id `call_c` (last non-empty), name `g`, arguments
`a1a2`. -/
theorem claim_C3_witness :
    lookupTS ((runChatLines (fun _ => none) "m" 0 {}
        ([(some "call_a", some "f", some "a1"),
          (some "", none, some "a2"),
          (some "call_c", some "g", none)].map
          (fun f => toolFragmentChunk (mkToolCallFragment 7 f.1 f.2.1 f.2.2)))).1).toolCallsState 7
      = some { id := "call_c", name := "g", arguments := "a1a2" } := by
  exact (claim_C3_accumulator_last_wins_args_concat (fun _ => none) "m" 0 7
    [(some "call_a", some "f", some "a1"), (some "", none, some "a2"),
     (some "call_c", some "g", none)] (by decide)).trans rfl

/-- Claim C4: a streamed backend generation response with N non-empty
content fragments followed by a finish signal translates to exactly N
non-final increments (one content delta each, in fragment order) followed
by exactly one final increment whose running token count equals N; and a
stream that ends without any backend finish reason gets a synthesized
final increment with reason `"stop"` and the running token count. -/
theorem claim_C4_streaming_completion_counts (model : String) (elapsed : Int)
    (frags : List (String × String)) (raw r : String)
    (hne : ∀ f ∈ frags, f.2 ≠ "") (hr1 : r ≠ "") (hr2 : r ≠ "null") :
    (handleStreamingCompletion model elapsed
        (frags.map (fun f => completionContentChunk f.1 f.2)
          ++ [completionFinishChunk raw r, .sentinel])).2
      = frags.map (fun f => ({ model := model, response := f.2, done := false } : GenerateResponse))
        ++ [completionFinalResponse model r elapsed (frags.length : Int)]
    ∧ (handleStreamingCompletion model elapsed
        (frags.map (fun f => completionContentChunk f.1 f.2))).2
      = frags.map (fun f => ({ model := model, response := f.2, done := false } : GenerateResponse))
        ++ [completionFinalResponse model "stop" elapsed (frags.length : Int)] := by
  obtain ⟨hout, hfin, htok⟩ := runCompletion_content model elapsed frags {} hne
  have htok' : ((runCompletionLines model elapsed {}
      (frags.map (fun f => completionContentChunk f.1 f.2))).1).tokenCount
      = (frags.length : Int) := by rw [htok]; simp
  have hfin' : ((runCompletionLines model elapsed {}
      (frags.map (fun f => completionContentChunk f.1 f.2))).1).sentFinalMessage = false := by
    rw [hfin]
  constructor
  · obtain ⟨htail, htailfin⟩ := runCompletion_finish_tail model elapsed raw r _ hr1 hr2 hfin'
    have hend : ((runCompletionLines model elapsed {}
        (frags.map (fun f => completionContentChunk f.1 f.2)
          ++ [completionFinishChunk raw r, .sentinel])).1).sentFinalMessage = true := by
      rw [runCompletion_append_fst]
      exact htailfin
    simp only [handleStreamingCompletion, hend]
    rw [runCompletion_append_snd, hout, htail, htok']
    simp
  · simp only [handleStreamingCompletion, hfin']
    rw [hout, htok']
    simp

/-- Witness for C4, the end-to-end generation scenario: fragments `"Hel"`
then `"lo"` then a `"stop"` finish and the sentinel yield two non-final
increments and one final increment with `eval_count = 2`. -/
theorem claim_C4_witness :
    (handleStreamingCompletion "m" 7
        ([("a", "Hel"), ("b", "lo")].map (fun f => completionContentChunk f.1 f.2)
          ++ [completionFinishChunk "fin" "stop", .sentinel])).2
      = [{ model := "m", response := "Hel", done := false },
         { model := "m", response := "lo", done := false },
         completionFinalResponse "m" "stop" 7 2] := by
  exact ((claim_C4_streaming_completion_counts "m" 7 [("a", "Hel"), ("b", "lo")] "fin" "stop"
    (by decide) (by decide) (by decide)).1).trans rfl

/-- Claim C5: text injection is idempotent.  If the targeted user message
(first or last user message per `mode`) already contains the configured
text as a substring the message list is unchanged, otherwise the text is
appended to it preceded by a single space — hence applying the injection
twice equals applying it once. -/
theorem claim_C5_text_injection_idempotent (text mode : String) (msgs : List Message) :
    applyTextInjection text mode (applyTextInjection text mode msgs)
      = applyTextInjection text mode msgs := by
  rcases htarget : (if mode = "first" then findFirstUserIdx msgs else findLastUserIdx msgs)
    with _ | i
  · have hid : applyTextInjection text mode msgs = msgs := by
      simp only [applyTextInjection, htarget]
    rw [hid, hid]
  · rcases hmi : msgs[i]? with _ | m
    · have hid : applyTextInjection text mode msgs = msgs := by
        simp only [applyTextInjection, htarget, hmi]
      rw [hid, hid]
    · by_cases hc : goContains m.content text = true
      · have hid : applyTextInjection text mode msgs = msgs := by
          simp only [applyTextInjection, htarget, hmi, hc]
          simp
        rw [hid, hid]
      · have hinner : applyTextInjection text mode msgs
            = msgs.set i { m with content := m.content ++ " " ++ text } := by
          simp only [applyTextInjection, htarget, hmi]
          rw [if_neg hc]
        rw [hinner]
        have hlen : i < msgs.length := getElem?_some_lt msgs i m hmi
        have hrole : ∀ mm, msgs[i]? = some mm →
            ({ m with content := m.content ++ " " ++ text } : Message).role = mm.role := by
          intro mm hmm
          rw [hmi] at hmm
          rw [← Option.some.inj hmm]
        have htarget' : (if mode = "first"
            then findFirstUserIdx (msgs.set i { m with content := m.content ++ " " ++ text })
            else findLastUserIdx (msgs.set i { m with content := m.content ++ " " ++ text }))
            = some i := by
          by_cases hmode : mode = "first"
          · rw [if_pos hmode, findFirstUserIdx_set msgs i _ hrole]
            rw [if_pos hmode] at htarget
            exact htarget
          · rw [if_neg hmode, findLastUserIdx_set msgs i _ hrole]
            rw [if_neg hmode] at htarget
            exact htarget
        have hmi' : (msgs.set i { m with content := m.content ++ " " ++ text })[i]?
            = some { m with content := m.content ++ " " ++ text } :=
          getElem?_set_self' msgs i _ hlen
        have hc' : goContains
            ({ m with content := m.content ++ " " ++ text } : Message).content text = true :=
          goContains_append_self m.content text
        simp only [applyTextInjection, htarget', hmi', hc']
        simp

/-- Claim C6: with a non-empty configured tool blacklist, tool filtering
removes exactly the declared tools whose extractable function name is in
the blacklist, preserves the relative order of the remaining tools
(sublist), and keeps every tool whose name cannot be determined. -/
theorem claim_C6_tool_filtering (blacklist : List String) (tools : List JSON)
    (_hbl : blacklist ≠ []) :
    List.Sublist (filterTools blacklist tools) tools
    ∧ (∀ t ∈ tools, (extractToolName t = "" ∨ blacklist.contains (extractToolName t) = false) →
        t ∈ filterTools blacklist tools)
    ∧ (∀ t, t ∈ filterTools blacklist tools ↔
        t ∈ tools ∧ (extractToolName t = "" ∨ blacklist.contains (extractToolName t) = false))
    ∧ filterTools ["dangerous_tool"]
        [JSON.obj [("type", JSON.str "function"),
           ("function", JSON.obj [("name", JSON.str "dangerous_tool")])],
         JSON.obj [("type", JSON.str "function"),
           ("function", JSON.obj [("name", JSON.str "safe_tool")])]]
      = [JSON.obj [("type", JSON.str "function"),
           ("function", JSON.obj [("name", JSON.str "safe_tool")])]] := by
  refine ⟨List.filter_sublist tools, ?_, ?_, rfl⟩
  · intro t ht hkeep
    simp only [filterTools]
    rw [List.mem_filter]
    refine ⟨ht, ?_⟩
    rcases hkeep with hk | hk
    · simp [hk]
    · simp at hk
      simp [hk]
  · intro t
    simp only [filterTools]
    rw [List.mem_filter]
    constructor
    · rintro ⟨ht, hp⟩
      refine ⟨ht, ?_⟩
      rcases Bool.or_eq_true_iff.mp hp with hk | hk
      · exact Or.inl (by simpa using hk)
      · exact Or.inr (by simpa using hk)
    · rintro ⟨ht, hk⟩
      refine ⟨ht, ?_⟩
      rcases hk with hk | hk
      · simp [hk]
      · simp at hk
        simp [hk]

/-- Witness for C6, the blacklisted-tool scenario: of two declared tools
with one name blacklisted, only the non-blacklisted tool reaches the
backend request. -/
theorem claim_C6_witness :
    (["dangerous_tool"] : List String) ≠ []
    ∧ filterTools ["dangerous_tool"]
        [JSON.obj [("type", JSON.str "function"),
           ("function", JSON.obj [("name", JSON.str "dangerous_tool")])],
         JSON.obj [("type", JSON.str "function"),
           ("function", JSON.obj [("name", JSON.str "safe_tool")])]]
      = [JSON.obj [("type", JSON.str "function"),
           ("function", JSON.obj [("name", JSON.str "safe_tool")])]] := by
  refine ⟨by decide, ?_⟩
  exact (claim_C6_tool_filtering ["dangerous_tool"] [] (by decide)).2.2.2

/-- Claim C7: for every well-formed non-streaming backend response whose
usage token fields are absent (zero), the translated final increment's
prompt-token and completion-token counters are both exactly 1, never 0;
when the backend reports positive counts those counts are used instead —
on both the generation and the chat path. -/
theorem claim_C7_default_token_counts (model : String) (elapsed : Int)
    (r : OpenAICompletionResponse) (rc : OpenAIChatResponse)
    (c : OpenAICompletionChoice) (cs : List OpenAICompletionChoice)
    (hr : r.choices = c :: cs)
    (cc : OpenAIChatChoice) (ccs : List OpenAIChatChoice) (hc : rc.choices = cc :: ccs)
    (m : Message) (hm : cc.message = some m) :
    ((handleNonStreamingCompletion model (some r)).map
        (fun o => (o.promptEvalCount, o.evalCount))
      = [(if r.usage.promptTokens > 0 then r.usage.promptTokens else 1,
          if r.usage.completionTokens > 0 then r.usage.completionTokens else 1)])
    ∧ ((handleNonStreamingChat model elapsed (some rc)).map
        (fun o => (o.promptEvalCount, o.evalCount))
      = [(if rc.usage.promptTokens > 0 then rc.usage.promptTokens else 1,
          if rc.usage.completionTokens > 0 then rc.usage.completionTokens else 1)])
    ∧ (r.usage.promptTokens = 0 → r.usage.completionTokens = 0 →
        (handleNonStreamingCompletion model (some r)).map
          (fun o => (o.promptEvalCount, o.evalCount)) = [(1, 1)])
    ∧ (rc.usage.promptTokens = 0 → rc.usage.completionTokens = 0 →
        (handleNonStreamingChat model elapsed (some rc)).map
          (fun o => (o.promptEvalCount, o.evalCount)) = [(1, 1)])
    ∧ (∀ o ∈ handleNonStreamingCompletion model (some r),
        0 < o.promptEvalCount ∧ 0 < o.evalCount)
    ∧ (∀ o ∈ handleNonStreamingChat model elapsed (some rc),
        0 < o.promptEvalCount ∧ 0 < o.evalCount) := by
  have h1 : (handleNonStreamingCompletion model (some r)).map
      (fun o => (o.promptEvalCount, o.evalCount))
      = [(if r.usage.promptTokens > 0 then r.usage.promptTokens else 1,
          if r.usage.completionTokens > 0 then r.usage.completionTokens else 1)] := by
    simp [handleNonStreamingCompletion, hr]
  have h2 : (handleNonStreamingChat model elapsed (some rc)).map
      (fun o => (o.promptEvalCount, o.evalCount))
      = [(if rc.usage.promptTokens > 0 then rc.usage.promptTokens else 1,
          if rc.usage.completionTokens > 0 then rc.usage.completionTokens else 1)] := by
    simp [handleNonStreamingChat, hc, hm]
  refine ⟨h1, h2, ?_, ?_, ?_, ?_⟩
  · intro hz1 hz2
    rw [h1, hz1, hz2]
    norm_num
  · intro hz1 hz2
    rw [h2, hz1, hz2]
    norm_num
  · intro o ho
    simp only [handleNonStreamingCompletion, hr, List.mem_singleton] at ho
    subst ho
    constructor <;> (simp only []; split <;> omega)
  · intro o ho
    simp only [handleNonStreamingChat, hc, hm, List.mem_singleton] at ho
    subst ho
    constructor <;> (simp only []; split <;> omega)

/-- Witness for C7: a generation response with no usage data yields
counters (1, 1); a chat response with usage (42, 17) yields them
verbatim. -/
theorem claim_C7_witness :
    ((handleNonStreamingCompletion "m" (some { choices := [{ text := "hi" }] })).map
        (fun o => (o.promptEvalCount, o.evalCount)) = [(1, 1)])
    ∧ ((handleNonStreamingChat "m" 9 (some
        { choices := [{ message := some { role := "assistant", content := "hi" } }],
          usage := { promptTokens := 42, completionTokens := 17 } })).map
        (fun o => (o.promptEvalCount, o.evalCount)) = [(42, 17)]) := by
  have h := claim_C7_default_token_counts "m" 9
    { choices := [{ text := "hi" }] }
    { choices := [{ message := some { role := "assistant", content := "hi" } }],
      usage := { promptTokens := 42, completionTokens := 17 } }
    { text := "hi" } [] rfl
    { message := some { role := "assistant", content := "hi" } } [] rfl
    { role := "assistant", content := "hi" } rfl
  exact ⟨h.2.2.1 rfl rfl, (h.2.1).trans rfl⟩

/-- The non-streaming chat handler stamps every emitted increment with
the `+1`-biased total duration and the plain elapsed eval duration. -/
theorem handleNonStreamingChat_durations (model : String) (elapsed : Int)
    (body : Option OpenAIChatResponse) :
    ∀ o ∈ handleNonStreamingChat model elapsed body,
      o.totalDuration = elapsed + 1 ∧ o.evalDuration = elapsed := by
  intro o ho
  simp only [handleNonStreamingChat] at ho
  repeat' split at ho
  all_goals simp_all [List.mem_singleton]

/-- The non-streaming generation handler emits its increment with no
duration counters at all (total and eval both zero). -/
theorem handleNonStreamingCompletion_durations (model : String)
    (body : Option OpenAICompletionResponse) :
    ∀ o ∈ handleNonStreamingCompletion model body,
      o.totalDuration = 0 ∧ o.evalDuration = 0 := by
  intro o ho
  simp only [handleNonStreamingCompletion] at ho
  repeat' split at ho
  all_goals simp_all [List.mem_singleton]

/-- Claim C8, counterexample: the non-streaming generation path
(`handleNonStreamingCompletion`) is part of the translating adapter and
emits a final increment, yet sets no duration counters at all: its total
duration is 0, equal to its eval duration, refuting the claim that in
*every* final increment the total carries the `elapsed + 1` bias and
strictly exceeds its duration components. -/
theorem claim_C8_counterexample :
    (handleNonStreamingCompletion "m" (some { choices := [{ text := "hi" }] })).map
        (fun o => (o.done, o.totalDuration, o.evalDuration)) = [(true, 0, 0)]
    ∧ ¬ (∀ o ∈ handleNonStreamingCompletion "m" (some { choices := [{ text := "hi" }] }),
          o.done = true → o.totalDuration = o.evalDuration + 1) := by
  refine ⟨rfl, fun h => ?_⟩
  have h0 := h _ (List.mem_singleton_self _) rfl
  simp at h0

/-- Claim C8 (amended): every final increment that carries duration
counters — those of the streaming chat handler, the streaming generation
handler and the non-streaming chat handler — reports
`total_duration = elapsed + 1 = eval_duration + 1 > eval_duration`; the
non-streaming generation handler instead emits its final increment with
no duration counters (total and eval both 0). -/
theorem claim_C8_total_duration_bias (parse : String → Option JSON) (model : String)
    (elapsed : Int) (lines : List (ScanLine OpenAIChatResponse))
    (linesG : List (ScanLine OpenAICompletionResponse))
    (bodyC : Option OpenAIChatResponse) (bodyG : Option OpenAICompletionResponse) :
    (∀ o ∈ (handleStreamingChat parse model elapsed lines).2, o.done = true →
      o.totalDuration = elapsed + 1 ∧ o.totalDuration = o.evalDuration + 1
        ∧ o.evalDuration < o.totalDuration)
    ∧ (∀ o ∈ (handleStreamingCompletion model elapsed linesG).2, o.done = true →
      o.totalDuration = elapsed + 1 ∧ o.totalDuration = o.evalDuration + 1
        ∧ o.evalDuration < o.totalDuration)
    ∧ (∀ o ∈ handleNonStreamingChat model elapsed bodyC, o.done = true →
      o.totalDuration = elapsed + 1 ∧ o.totalDuration = o.evalDuration + 1
        ∧ o.evalDuration < o.totalDuration)
    ∧ (∀ o ∈ handleNonStreamingCompletion model bodyG, o.done = true →
      o.totalDuration = 0 ∧ o.evalDuration = 0) := by
  refine ⟨?_, ?_, ?_, ?_⟩
  · intro o ho hdone
    simp only [handleStreamingChat, List.mem_append] at ho
    have hfields : o.totalDuration = elapsed + 1 ∧ o.evalDuration = elapsed := by
      rcases ho with (ho | ho) | ho
      · exact runChat_final_fields parse model elapsed lines {} o ho hdone
      · split at ho
        · rcases List.mem_singleton.mp ho with rfl
          cases hdone
        · cases ho
      · split at ho
        · rcases List.mem_singleton.mp ho with rfl
          exact ⟨rfl, rfl⟩
        · cases ho
    exact ⟨hfields.1, by omega, by omega⟩
  · intro o ho hdone
    simp only [handleStreamingCompletion, List.mem_append] at ho
    have hfields : o.totalDuration = elapsed + 1 ∧ o.evalDuration = elapsed := by
      rcases ho with ho | ho
      · exact runCompletion_final_fields model elapsed linesG {} o ho hdone
      · split at ho
        · rcases List.mem_singleton.mp ho with rfl
          exact ⟨rfl, rfl⟩
        · cases ho
    exact ⟨hfields.1, by omega, by omega⟩
  · intro o ho _
    obtain ⟨h1, h2⟩ := handleNonStreamingChat_durations model elapsed bodyC o ho
    exact ⟨h1, by omega, by omega⟩
  · intro o ho _
    exact handleNonStreamingCompletion_durations model bodyG o ho

/-- Witness for the amended C8: with `elapsed = 5`, the synthesized final
increment of an empty chat stream reports total duration 6 and eval
duration 5; a non-streaming generation response yields total and eval
durations both 0. -/
theorem claim_C8_witness :
    (handleStreamingChat (fun _ => none) "m" 5 []).2 = [chatFinalResponse "m" "stop" 5 0]
    ∧ (chatFinalResponse "m" "stop" 5 0).totalDuration = 6
    ∧ (chatFinalResponse "m" "stop" 5 0).evalDuration = 5
    ∧ (handleNonStreamingCompletion "m" (some { choices := [{ text := "hi" }] })).map
        (fun o => (o.totalDuration, o.evalDuration)) = [(0, 0)] := by
  have h := (claim_C8_total_duration_bias (fun _ => none) "m" 5 [] [] none
      (some { choices := [{ text := "hi" }] })).1
    (chatFinalResponse "m" "stop" 5 0)
    (by rw [show (handleStreamingChat (fun _ => none) "m" 5 []).2
          = [chatFinalResponse "m" "stop" 5 0] from rfl]
        exact List.mem_singleton_self _) rfl
  refine ⟨rfl, h.1.trans (by norm_num), ?_, rfl⟩
  have h2 := h.2.1
  have h1 := h.1
  omega


/-- Claim C9: when the backend model listing is degraded — a non-200
status, or a 200 body that fails to decode — `ListModels` returns a
successful result containing exactly one synthetic model named
`"default"` with zero size and empty digest, never an error. -/
theorem claim_C9_list_models_degraded (status : Int) (decoded : Option (List String))
    (hst : status ≠ 200) :
    ListModels (.response status decoded) = .ok defaultModelsResponse
    ∧ ListModels (.response 200 none) = .ok defaultModelsResponse
    ∧ (∀ s d, (ListModels (ListModelsOutcome.response s d)).toOption.isSome = true)
    ∧ defaultModelsResponse.models.length = 1
    ∧ (∀ mi ∈ defaultModelsResponse.models,
        mi.name = "default" ∧ mi.size = 0 ∧ mi.digest = "") := by
  refine ⟨by simp [ListModels, hst], rfl, ?_, rfl, by decide⟩
  intro s d
  by_cases hs : s = 200
  · subst hs
    rcases d with _ | ids <;> rfl
  · simp only [ListModels]
    rw [if_pos hs]
    rfl

/-- Witness for C9: a 500 status (even with a decodable body) and an
undecodable 200 body both yield the synthetic default model, not an
error. -/
theorem claim_C9_witness :
    ListModels (.response 500 (some ["llama"])) = .ok defaultModelsResponse
    ∧ ListModels (.response 200 none) = .ok defaultModelsResponse := by
  have h := claim_C9_list_models_degraded 500 (some ["llama"]) (by decide)
  exact ⟨h.1, h.2.1⟩

/-- Claim C10 (implicit): every tool call assembled by
`buildToolCallsArray` is a single-key object holding only a `function`
object with exactly `name` and `arguments` fields — the accumulated call
ID never appears — and a call whose accumulated arguments string is empty
gets the empty object (not the empty string) as its arguments, as the
concrete id-carrying example shows. -/
theorem claim_C10_tool_call_shape (parse : String → Option JSON) (st : ToolCallsState) :
    (buildToolCallsArray parse st).all wellFormedOllamaToolCall = true
    ∧ parseArgsValue parse "" = JSON.obj []
    ∧ buildToolCallsArray (fun _ => none)
        [(0, { id := "call_123", name := "get_weather", arguments := "" })]
      = [JSON.obj [("function", JSON.obj [("name", JSON.str "get_weather"),
           ("arguments", JSON.obj [])])]] := by
  refine ⟨?_, rfl, rfl⟩
  rw [List.all_eq_true]
  intro c hc
  simp only [buildToolCallsArray] at hc
  split at hc
  · cases hc
  · obtain ⟨i, _, hmap⟩ := List.mem_filterMap.mp hc
    rcases hl : lookupTS st (Int.ofNat i) with _ | s <;> rw [hl] at hmap
    · cases hmap
    · rcases Option.some.inj hmap with rfl
      rfl

end LLMProxy
